import Mathlib

/-!
# Verification of the toy exchange (`src/main.py`)

A shallow embedding of the matching-engine and ledger logic of the repository.
The database tables (`balances`, `orders`, `transactions`, `instruments`) are
modelled as lists of rows held in an `ExchangeState`; each endpoint handler is
translated into a pure function on that state.  SQL queries are modelled as
list filters / stable sorts; where a SQL `ORDER BY` leaves the relative order
of equal keys unspecified, a nondeterministic "valid fetch" relation captures
exactly what the query contract guarantees.

Python `datetime.now()` is modelled by a `clock` counter in the state, and
`uuid4()` order identifiers are supplied by the caller as a `Nat`.  A raised
exception (`HTTPException`, or a `TypeError` from arithmetic on `None`)
propagates out of the handler while database effects already executed persist,
exactly as in the source (there is no transactional wrapping); handlers
therefore return both an `Except` outcome and the (possibly partially
mutated) final state.
-/

/-- Order direction, `Direction` in the source (`"BUY"` / `"SELL"`). -/
inductive Direction : Type
  | buy
  | sell
deriving DecidableEq, Repr

/-- Order status, `OrderStatus` in the source. -/
inductive OrderStatus : Type
  | new
  | executed
  | partiallyExecuted
  | cancelled
deriving DecidableEq, Repr

/-- Order kind, the `order_type` column (`"LIMIT"` / `"MARKET"`). -/
inductive OrderKind : Type
  | limit
  | market
deriving DecidableEq, Repr

/-- Error outcomes of the handlers (the `HTTPException`s raised in the source,
plus `typeError` for the Python `TypeError` raised by arithmetic on a `None`
price).  `unknownInstrument` and `validationError` exist so that claims about
them can be stated; the latter is produced only by request-body validation
(pydantic `conint(gt=0)`), modelled by the `parse*Body` functions. -/
inductive Err : Type
  | validationError
  | unknownInstrument
  | insufficientFunds
  | notFound
  | invalidState
  | typeError
deriving DecidableEq, Repr

deriving instance DecidableEq for Except

/-- A row of the `orders` table.  `price` is `none` exactly when the SQL
column is `NULL` (market orders are stored with `price=None`). -/
structure OrderRow : Type where
  id : Nat
  status : OrderStatus
  user_id : Nat
  timestamp : Nat
  direction : Direction
  ticker : String
  qty : Int
  price : Option Int
  filled : Int
  order_type : OrderKind
deriving DecidableEq, Repr

/-- A row of the `transactions` table. -/
structure TransactionRow : Type where
  ticker : String
  amount : Int
  price : Option Int
  timestamp : Nat
  buyer_id : Nat
  seller_id : Nat
deriving DecidableEq, Repr

/-- A row of the `balances` table. -/
structure BalanceRow : Type where
  user_id : Nat
  ticker : String
  amount : Int
deriving DecidableEq, Repr

/-- The database state: the four tables relevant to the core, plus a clock
modelling `datetime.now()`. -/
structure ExchangeState : Type where
  instruments : List String
  balances : List BalanceRow
  orders : List OrderRow
  transactions : List TransactionRow
  clock : Nat
deriving DecidableEq, Repr

/-- The fixed settlement currency (`base_currency = "MEMCOIN"` in
`create_order`). -/
def baseCurrency : String := "MEMCOIN"

/-- Does a balance row belong to the given (account, ticker) pair?  This is
the `WHERE user_id = .. AND ticker = ..` condition of `update_balance`. -/
def balKey (u : Nat) (t : String) (b : BalanceRow) : Bool :=
  decide (b.user_id = u ∧ b.ticker = t)

/-- `database.fetch_one` of the balance row for (account, ticker): the first
matching row, if any. -/
def fetchBalance (st : ExchangeState) (u : Nat) (t : String) : Option BalanceRow :=
  st.balances.find? (balKey u t)

/-- The balance an account holds in a ticker, with the documented
"absence means zero" convention. -/
def lookupBalance (st : ExchangeState) (u : Nat) (t : String) : Int :=
  ((fetchBalance st u t).map BalanceRow.amount).getD 0

/-- `update_balance(user_id, ticker, amount)` (src/main.py lines 527-568):
fetch the row; if present, fail with `InsufficientFunds` when
`amount + delta < 0`, otherwise update every row of that key to the new
amount (the SQL `UPDATE .. WHERE` hits all matching rows); if absent, fail
when `delta < 0`, otherwise insert a new row holding `delta`.  On failure no
row is written. -/
def update_balance (st : ExchangeState) (u : Nat) (t : String) (amount : Int) :
    Except Err ExchangeState :=
  match fetchBalance st u t with
  | some b =>
      if b.amount + amount < 0 then .error .insufficientFunds
      else .ok { st with
        balances := st.balances.map fun r =>
          if balKey u t r then { r with amount := b.amount + amount } else r }
  | none =>
      if amount < 0 then .error .insufficientFunds
      else .ok { st with balances := st.balances ++ [⟨u, t, amount⟩] }

/-- The opposite side (`opposite_direction` in `create_order`). -/
def opposite : Direction → Direction
  | .buy => .sell
  | .sell => .buy

/-- The `WHERE` condition of the matching query and of the order-book query:
same ticker, given direction, and status `NEW` or `PARTIALLY_EXECUTED`.
Note it does not look at `order_type` or at `price`. -/
def isRestingRow (o : OrderRow) (t : String) (d : Direction) : Bool :=
  decide (o.ticker = t ∧ o.direction = d ∧
    (o.status = .new ∨ o.status = .partiallyExecuted))

/-- SQLite comparison key for `ORDER BY price ASC`:  `NULL` sorts before
every value. -/
def priceLeAsc (a b : Option Int) : Bool :=
  match a, b with
  | none, _ => true
  | some _, none => false
  | some p, some q => decide (p ≤ q)

/-- SQLite comparison key for `ORDER BY price DESC`:  `NULL` sorts after
every value. -/
def priceLeDesc (a b : Option Int) : Bool :=
  match a, b with
  | _, none => true
  | none, some _ => false
  | some p, some q => decide (q ≤ p)

/-- The key used by the matching query of `create_order`: price ascending
when the incoming order is a Buy, descending when it is a Sell. -/
def priceKey : Direction → Option Int → Option Int → Bool
  | .buy => priceLeAsc
  | .sell => priceLeDesc

/-- Row ordering used to model the matching query's `ORDER BY` for an
incoming order of direction `d`. -/
def matchRel (d : Direction) (a b : OrderRow) : Prop :=
  priceKey d a.price b.price = true

instance (d : Direction) : DecidableRel (matchRel d) := fun a b =>
  inferInstanceAs (Decidable (priceKey d a.price b.price = true))

instance (d : Direction) : IsTotal OrderRow (matchRel d) := by
  constructor
  intro a b
  cases d <;> cases ha : a.price <;> cases hb : b.price <;>
    simp [matchRel, priceKey, priceLeAsc, priceLeDesc, ha, hb] <;> omega

instance (d : Direction) : IsTrans OrderRow (matchRel d) := by
  constructor
  intro a b c
  cases d <;> cases ha : a.price <;> cases hb : b.price <;> cases hc : c.price <;>
    simp [matchRel, priceKey, priceLeAsc, priceLeDesc, ha, hb, hc] <;> omega

/-- The deterministic model of the matching query of `create_order`
(src/main.py lines 292-303): the resting opposite-side rows of the ticker,
sorted by price (a stable sort; the SQL contract itself fixes only the
price order — see `validMatchFetch`). -/
def matchingOrders (st : ExchangeState) (t : String) (d : Direction) :
    List OrderRow :=
  (st.orders.filter fun o => isRestingRow o t (opposite d)).insertionSort (matchRel d)

/-- What the SQL matching query actually guarantees about its result: it is
a permutation of the resting opposite-side rows, ordered by the price key.
The relative order of rows with equal `price` is *not* constrained (the
query's `ORDER BY` has the single key `price`). -/
def validMatchFetch (st : ExchangeState) (t : String) (d : Direction)
    (result : List OrderRow) : Prop :=
  result.Perm (st.orders.filter fun o => isRestingRow o t (opposite d)) ∧
  result.Pairwise (matchRel d)

/-- Price-ties broken by earliest timestamp first (the ordering the claim
asserts for counterparty consumption). -/
def timeTieOrdered (rows : List OrderRow) : Prop :=
  rows.Pairwise fun a b => a.price = b.price → a.timestamp ≤ b.timestamp

/-- One balance adjustment: account, asset, and the delta; `none` models a
delta whose Python computation (`qty * None`) raises a `TypeError`. -/
abbrev Adjustment : Type := Nat × String × Option Int

/-- The four `update_balance` calls one execution performs, in source order
(src/main.py lines 345-360): for a Buy submitter, buyer `+qty` ticker, buyer
`−qty·price` base, seller `+qty·price` base, seller `−qty` ticker; for a
Sell submitter the mirror image.  `p` is the resting order's price column. -/
def adjList (d : Direction) (uid muid : Nat) (t : String) (q : Int)
    (p : Option Int) : List Adjustment :=
  match d with
  | .buy =>
      [(uid, t, some q),
       (uid, baseCurrency, p.map fun pr => -(q * pr)),
       (muid, baseCurrency, p.map fun pr => q * pr),
       (muid, t, some (-q))]
  | .sell =>
      [(uid, baseCurrency, p.map fun pr => q * pr),
       (uid, t, some (-q)),
       (muid, t, some q),
       (muid, baseCurrency, p.map fun pr => -(q * pr))]

/-- Run a list of `update_balance` calls in order; the first failure stops
the run and is reported, with the state as mutated so far (an exception in
the source aborts the handler but does not undo earlier writes). -/
def seqAdjust : ExchangeState → List Adjustment → ExchangeState × Option Err
  | st, [] => (st, none)
  | st, (_, _, none) :: _ => (st, some .typeError)
  | st, (u, t, some a) :: rest =>
      match update_balance st u t a with
      | .error e => (st, some e)
      | .ok st' => seqAdjust st' rest

/-- The effects of one execution that precede its balance adjustments,
with `q` the execution quantity: append the transaction row (src/main.py
lines 317-325; `execution_price` is the matched row's `price`, possibly
`NULL`) and update the matched order's `filled` and `status` (lines
327-337: `EXECUTED` once `new_filled >= qty`, else `PARTIALLY_EXECUTED`).
Balances are untouched here. -/
def execPre (uid : Nat) (d : Direction) (t : String) (m : OrderRow)
    (st : ExchangeState) (q : Int) : ExchangeState :=
  { st with
    transactions := st.transactions ++
      [{ ticker := t, amount := q, price := m.price, timestamp := st.clock,
         buyer_id := if d = .buy then uid else m.user_id,
         seller_id := if d = .buy then m.user_id else uid }],
    clock := st.clock + 1,
    orders := st.orders.map fun o =>
      if o.id = m.id then
        { o with filled := m.filled + q,
                 status := if m.qty ≤ m.filled + q then .executed
                           else .partiallyExecuted }
      else o }

/-- The market-order crossing loop of `create_order` (src/main.py lines
308-363).  For each matched row while quantity remains
(`execution_qty = min(remaining, match.qty - match.filled)`): apply
`execPre`, then the four balance adjustments; an error stops the loop with
all effects so far retained.  Returns (state, remaining qty, executed flag,
error). -/
def matchLoop (uid : Nat) (d : Direction) (t : String) :
    List OrderRow → ExchangeState → Int → Bool →
    ExchangeState × Int × Bool × Option Err
  | [], st, rem, ex => (st, rem, ex, none)
  | m :: ms, st, rem, ex =>
      if rem ≤ 0 then (st, rem, ex, none)
      else
        match seqAdjust (execPre uid d t m st (min rem (m.qty - m.filled)))
            (adjList d uid m.user_id t (min rem (m.qty - m.filled)) m.price) with
        | (st3, some e) => (st3, rem, ex, some e)
        | (st3, none) =>
            matchLoop uid d t ms st3 (rem - min rem (m.qty - m.filled)) true

/-- A parsed order request body (`LimitOrderBody` / `MarketOrderBody`). -/
inductive OrderBody : Type
  | limit (direction : Direction) (ticker : String) (qty price : Int)
  | market (direction : Direction) (ticker : String) (qty : Int)
deriving DecidableEq, Repr

/-- Request-body validation done by pydantic (`conint(gt=0)` on `qty` and
`price` of `LimitOrderBody`): a non-positive field is rejected before the
handler runs. -/
def parseLimitBody (d : Direction) (t : String) (q p : Int) :
    Except Err OrderBody :=
  if q ≤ 0 ∨ p ≤ 0 then .error .validationError else .ok (.limit d t q p)

/-- Request-body validation for `MarketOrderBody` (`conint(gt=0)` on `qty`). -/
def parseMarketBody (d : Direction) (t : String) (q : Int) :
    Except Err OrderBody :=
  if q ≤ 0 then .error .validationError else .ok (.market d t q)

/-- `create_order` (src/main.py lines 279-412).  `oid` models the fresh
`uuid4()` order identifier.  A Market order runs the crossing loop over the
matching query's rows, then is persisted only when not fully executed, with
`price=None` and `filled = qty − remaining`.  A Limit order is inserted
directly with status `NEW` and `filled=0` — no matching, no balance checks,
and no lookup of the `instruments` table in either branch. -/
def create_order (st : ExchangeState) (uid oid : Nat) (body : OrderBody) :
    Except Err Nat × ExchangeState :=
  match body with
  | .market d t q =>
      match matchLoop uid d t (matchingOrders st t d) st q false with
      | (st1, _, _, some e) => (.error e, st1)
      | (st1, rem, ex, none) =>
        let finalStatus : OrderStatus :=
          if 0 < rem ∧ ex then .partiallyExecuted
          else if 0 < rem then .new
          else .executed
        if finalStatus = .executed then (.ok oid, st1)
        else
          let row : OrderRow :=
            { id := oid, status := finalStatus, user_id := uid,
              timestamp := st1.clock, direction := d, ticker := t, qty := q,
              price := none, filled := q - rem, order_type := .market }
          (.ok oid, { st1 with orders := st1.orders ++ [row],
                               clock := st1.clock + 1 })
  | .limit d t q p =>
      let row : OrderRow :=
        { id := oid, status := .new, user_id := uid, timestamp := st.clock,
          direction := d, ticker := t, qty := q, price := some p, filled := 0,
          order_type := .limit }
      (.ok oid, { st with orders := st.orders ++ [row], clock := st.clock + 1 })

/-- The `fetch_one` of `cancel_order`: the order with this id owned by this
caller. -/
def findOrder (st : ExchangeState) (uid oid : Nat) : Option OrderRow :=
  st.orders.find? fun o => decide (o.id = oid ∧ o.user_id = uid)

/-- `cancel_order` (src/main.py lines 434-457): 404 when no such order of
this caller, 400 when the status is already `EXECUTED` or `CANCELLED`, else
set the status of the order (keyed by id alone in the `UPDATE`) to
`CANCELLED`. -/
def cancel_order (st : ExchangeState) (uid oid : Nat) :
    Except Err Unit × ExchangeState :=
  match findOrder st uid oid with
  | none => (.error .notFound, st)
  | some o =>
      if o.status = .executed ∨ o.status = .cancelled then
        (.error .invalidState, st)
      else
        (.ok (), { st with orders := st.orders.map fun r =>
          if r.id = oid then { r with status := .cancelled } else r })

/-- The `limit` clamp of `get_orderbook`: values above 25 become 25 (values
`≤ 25`, including non-positive ones, pass through). -/
def clampLimit (l : Int) : Int := if 25 < l then 25 else l

/-- SQL `LIMIT l`: at most `l` rows; a negative `l` means no limit in
SQLite. -/
def takeLim (l : Int) (rows : List OrderRow) : List OrderRow :=
  if l < 0 then rows else rows.take l.toNat

/-- Row ordering of the two order-book queries: bids (`BUY` rows) by price
descending, asks (`SELL` rows) ascending. -/
def bookRel (d : Direction) : OrderRow → OrderRow → Prop :=
  matchRel (opposite d)

instance (d : Direction) : DecidableRel (bookRel d) := fun a b =>
  inferInstanceAs (Decidable (matchRel (opposite d) a b))

instance (d : Direction) : IsTotal OrderRow (bookRel d) :=
  inferInstanceAs (IsTotal OrderRow (matchRel (opposite d)))

instance (d : Direction) : IsTrans OrderRow (bookRel d) :=
  inferInstanceAs (IsTrans OrderRow (matchRel (opposite d)))

/-- The rows one side's order-book query returns (deterministic model:
stable sort by price, then `LIMIT`).  Note the `LIMIT` applies to rows,
i.e. to individual orders. -/
def fetchBookSide (st : ExchangeState) (t : String) (d : Direction)
    (lim : Int) : List OrderRow :=
  takeLim lim ((st.orders.filter fun o => isRestingRow o t d).insertionSort (bookRel d))

/-- One `dict` update of the level-aggregation loops: add `q` to the entry
of price `p`, first occurrence wins, new prices appended (Python dict
insertion order). -/
def bumpLevel : List (Option Int × Int) → Option Int → Int →
    List (Option Int × Int)
  | [], p, q => [(p, q)]
  | (p', q') :: ls, p, q =>
      if p' = p then (p', q' + q) :: ls else (p', q') :: bumpLevel ls p q

/-- The level-aggregation loop of `get_orderbook`: fold the fetched rows
into price → total remaining quantity (`qty - filled`). -/
def aggLevels (rows : List OrderRow) : List (Option Int × Int) :=
  rows.foldl (fun acc o => bumpLevel acc o.price (o.qty - o.filled)) []

/-- The L2 snapshot response. -/
structure L2OrderBook : Type where
  bid_levels : List (Option Int × Int)
  ask_levels : List (Option Int × Int)
deriving DecidableEq, Repr

/-- `get_orderbook` (src/main.py lines 210-259): clamp the limit, fetch at
most `limit` resting rows per side in price order, aggregate those rows by
price. -/
def get_orderbook (st : ExchangeState) (t : String) (limit : Int) :
    L2OrderBook :=
  let lim := clampLimit limit
  { bid_levels := aggLevels (fetchBookSide st t .buy lim),
    ask_levels := aggLevels (fetchBookSide st t .sell lim) }

/-- The spec-side snapshot of one book side, for comparison with
`get_orderbook`.  It follows the spec's words: aggregate the remaining
quantity of *all* resting orders by price, best price first, and truncate
to `maxLevels` *price levels*. -/
def spec_snapshotLevels (st : ExchangeState) (t : String) (d : Direction)
    (maxLevels : Int) : List (Option Int × Int) :=
  (aggLevels ((st.orders.filter fun o => isRestingRow o t d).insertionSort (bookRel d))).take
    (clampLimit maxLevels).toNat

/-- `deposit` (src/main.py lines 516-519): a single positive-side
`update_balance`. -/
def deposit (st : ExchangeState) (u : Nat) (t : String) (a : Int) :
    Except Err ExchangeState :=
  update_balance st u t a

/-- `withdraw` (src/main.py lines 521-524): a single negative-side
`update_balance`. -/
def withdraw (st : ExchangeState) (u : Nat) (t : String) (a : Int) :
    Except Err ExchangeState :=
  update_balance st u t (-a)

/-! ## Further definitions used by the statements -/

/-- Total amount of one asset summed over all balance rows (conservation is
stated as invariance of these totals). -/
def totalOf : List BalanceRow → String → Int
  | [], _ => 0
  | b :: l, s => (if b.ticker = s then b.amount else 0) + totalOf l s

/-- Total amount of one asset held across all accounts. -/
def totalBalance (st : ExchangeState) (s : String) : Int :=
  totalOf st.balances s

/-- Each (account, ticker) pair has at most one balance row — the table's
`PrimaryKeyConstraint("user_id", "ticker")`; every state the handlers can
build satisfies it. -/
def balKeysNodup (st : ExchangeState) : Prop :=
  (st.balances.map fun b => (b.user_id, b.ticker)).Nodup

/-- Net delta an adjustment list applies to one asset (a `none` delta, which
raises before reaching the ledger, contributes nothing). -/
def netDelta (s : String) : List Adjustment → Int
  | [] => 0
  | (_, t, d) :: rest => (if t = s then d.getD 0 else 0) + netDelta s rest

/-- Sum of remaining quantity (`qty - filled`) over the rows at one price. -/
def sumRemainingAt : List OrderRow → Option Int → Int
  | [], _ => 0
  | o :: rest, p =>
      (if o.price = p then o.qty - o.filled else 0) + sumRemainingAt rest p

/-- The quantity a level list reports at one price (0 when the price has no
level). -/
def lookupLevel (ls : List (Option Int × Int)) (p : Option Int) : Int :=
  ((ls.find? fun e => decide (e.1 = p)).map Prod.snd).getD 0

/-- A deposit of `a` followed by a withdraw of `a`, the composite C10 is
about. -/
def depositThenWithdraw (st : ExchangeState) (u : Nat) (t : String)
    (a : Int) : Except Err ExchangeState :=
  (deposit st u t a).bind fun st1 => withdraw st1 u t a

/-! ## Concrete scenario states -/

/-- A resting Limit Sell 10@50 of AAPL by account 1 (inserting it never
checked any balance). -/
def restingSell50 : OrderRow :=
  { id := 0, status := .new, user_id := 1, timestamp := 0,
    direction := .sell, ticker := "AAPL", qty := 10, price := some 50,
    filled := 0, order_type := .limit }

/-- Atomicity scenario: account 1 rests Sell 10@50 AAPL while owning no
AAPL at all; account 2 holds exactly the 500 MEMCOIN the trade costs. -/
def atomSt : ExchangeState :=
  { instruments := ["AAPL"], balances := [⟨2, "MEMCOIN", 500⟩],
    orders := [restingSell50], transactions := [], clock := 1 }

/-- Like `atomSt` but the seller owns the 10 AAPL, so the submission
succeeds end to end. -/
def fundedSt : ExchangeState :=
  { instruments := ["AAPL"],
    balances := [⟨1, "AAPL", 10⟩, ⟨2, "MEMCOIN", 500⟩],
    orders := [restingSell50], transactions := [], clock := 1 }

/-- Market-remainder scenario, before anything happens: an empty book and a
buyer with plenty of MEMCOIN. -/
def mkSt0 : ExchangeState :=
  { instruments := ["AAPL"], balances := [⟨2, "MEMCOIN", 1000⟩],
    orders := [], transactions := [], clock := 0 }

/-- The state after account 1 submits Market Sell 5 AAPL into the empty
book of `mkSt0`: the unmatched market order is persisted with status `NEW`
and `price = NULL`. -/
def mkSt1 : ExchangeState :=
  (create_order mkSt0 1 100 (.market .sell "AAPL" 5)).2

/-- Two resting Limit Sells at the same price 100 with timestamps 1 < 2. -/
def tieRowEarly : OrderRow :=
  { id := 1, status := .new, user_id := 1, timestamp := 1,
    direction := .sell, ticker := "AAPL", qty := 5, price := some 100,
    filled := 0, order_type := .limit }

/-- The later of the two same-priced resting sells. -/
def tieRowLate : OrderRow :=
  { id := 2, status := .new, user_id := 1, timestamp := 2,
    direction := .sell, ticker := "AAPL", qty := 5, price := some 100,
    filled := 0, order_type := .limit }

/-- Book holding the two same-priced resting sells of the tie scenario. -/
def tieSt : ExchangeState :=
  { instruments := ["AAPL"], balances := [],
    orders := [tieRowEarly, tieRowLate], transactions := [], clock := 3 }

/-- Order-book truncation scenario: 26 resting Sells, all at price 100 with
remaining quantity 1. -/
def bookSt26 : ExchangeState :=
  { instruments := ["AAPL"], balances := [], transactions := [], clock := 100,
    orders := (List.range 26).map fun i =>
      { id := i, status := .new, user_id := 1, timestamp := i,
        direction := .sell, ticker := "AAPL", qty := 1, price := some 100,
        filled := 0, order_type := .limit } }

/-- A resting Limit Sell 10@40 of AAPL by account 1. -/
def restingSell40 : OrderRow :=
  { id := 0, status := .new, user_id := 1, timestamp := 0,
    direction := .sell, ticker := "AAPL", qty := 10, price := some 40,
    filled := 0, order_type := .limit }

/-- A book with one crossing resting Sell 10@40 of AAPL. -/
def crossSt : ExchangeState :=
  { instruments := ["AAPL"], balances := [], orders := [restingSell40],
    transactions := [], clock := 1 }

/-- An already-executed order of account 1. -/
def cancelRowDone : OrderRow :=
  { id := 3, status := .executed, user_id := 1, timestamp := 0,
    direction := .buy, ticker := "AAPL", qty := 5, price := some 10,
    filled := 5, order_type := .limit }

/-- A still-open order of account 1. -/
def cancelRowOpen : OrderRow :=
  { id := 4, status := .new, user_id := 1, timestamp := 1,
    direction := .buy, ticker := "AAPL", qty := 5, price := some 10,
    filled := 0, order_type := .limit }

/-- State for the cancellation scenarios. -/
def cancelSt : ExchangeState :=
  { instruments := ["AAPL"], balances := [],
    orders := [cancelRowDone, cancelRowOpen], transactions := [], clock := 2 }

/-- A state with no instruments, no balances, no orders. -/
def emptySt : ExchangeState :=
  { instruments := [], balances := [], orders := [], transactions := [],
    clock := 0 }

/-- A ledger holding 2 GOLD for account 1. -/
def goldSt : ExchangeState :=
  { instruments := [], balances := [⟨1, "GOLD", 2⟩], orders := [],
    transactions := [], clock := 0 }

/-! ## Helper lemmas about balance-table operations -/

theorem balKey_set_amount (u : Nat) (t : String) (r : BalanceRow) (n : Int) :
    balKey u t { r with amount := n } = balKey u t r := rfl

theorem find?_map_balKey (l : List BalanceRow) (u : Nat) (t : String) (n : Int) :
    (l.map fun r => if balKey u t r then { r with amount := n } else r).find?
        (balKey u t) =
      (l.find? (balKey u t)).map fun r => { r with amount := n } := by
  induction l with
  | nil => rfl
  | cons h l ih =>
      by_cases hk : balKey u t h
      · simp [List.find?, hk, balKey_set_amount]
      · simp only [List.map_cons, if_neg hk, List.find?]
        rw [Bool.eq_false_iff.mpr hk]
        exact ih

theorem find?_map_balKey_ne (l : List BalanceRow) (u : Nat) (t : String)
    (n : Int) (u' : Nat) (t' : String) (h : ¬(u' = u ∧ t' = t)) :
    (l.map fun r => if balKey u t r then { r with amount := n } else r).find?
        (balKey u' t') =
      l.find? (balKey u' t') := by
  induction l with
  | nil => rfl
  | cons b l ih =>
      by_cases hk : balKey u t b
      · have hb : b.user_id = u ∧ b.ticker = t := by
          simpa [balKey] using hk
        have hk' : balKey u' t' b = false := by
          simp only [balKey, decide_eq_false_iff_not]
          rintro ⟨h1, h2⟩
          exact h ⟨by rw [← h1, hb.1], by rw [← h2, hb.2]⟩
        have hk'' : balKey u' t' { b with amount := n } = false := hk'
        simp [List.find?, hk, hk', hk'', ih]
      · by_cases hk2 : balKey u' t' b
        · simp [List.find?, hk, hk2]
        · simp [List.find?, hk, hk2, ih]

theorem lookupBalance_congr (st st' : ExchangeState) (u : Nat) (t : String)
    (h : st'.balances = st.balances) :
    lookupBalance st' u t = lookupBalance st u t := by
  simp [lookupBalance, fetchBalance, h]

/-! ## C5 : `update_balance` guards the non-negative invariant -/

/-- C5: for every account, ticker and delta, `update_balance` reads the
current balance (0 when no row exists); it fails with `InsufficientFunds`
exactly when `current + delta < 0` (mutating nothing, as the returned
`Except` carries no state on error), and otherwise commits `current + delta`
— and every row it writes is non-negative, so no adjust leaves a balance
below zero. -/
theorem update_balance_nonneg_guard (st : ExchangeState) (u : Nat)
    (t : String) (a : Int) :
    (update_balance st u t a = .error .insufficientFunds ↔
      lookupBalance st u t + a < 0) ∧
    (∀ st', update_balance st u t a = .ok st' →
      lookupBalance st' u t = lookupBalance st u t + a ∧
      ∀ b ∈ st'.balances, b ∈ st.balances ∨ 0 ≤ b.amount) := by
  cases hfb : fetchBalance st u t with
  | none =>
      have hcur : lookupBalance st u t = 0 := by
        simp [lookupBalance, hfb]
      rw [hcur]
      unfold update_balance
      rw [hfb]
      constructor
      · constructor
        · intro h
          by_cases ha : a < 0
          · omega
          · simp [ha] at h
        · intro h
          simp [show a < 0 by omega]
      · intro st' h
        by_cases ha : a < 0
        · simp [ha] at h
        · simp only [ha, if_false, Except.ok.injEq] at h
          subst h
          constructor
          · show lookupBalance _ u t = 0 + a
            unfold lookupBalance fetchBalance
            simp only [List.find?_append]
            unfold fetchBalance at hfb
            rw [hfb]
            simp [List.find?, balKey]
          · intro b hb
            simp only [List.mem_append, List.mem_singleton] at hb
            rcases hb with hb | hb
            · exact Or.inl hb
            · right
              rw [hb]
              show (0 : Int) ≤ a
              omega
  | some b =>
      have hcur : lookupBalance st u t = b.amount := by
        simp [lookupBalance, hfb]
      rw [hcur]
      unfold update_balance
      rw [hfb]
      constructor
      · constructor
        · intro h
          by_cases hneg : b.amount + a < 0
          · omega
          · simp [hneg] at h
        · intro h
          simp [show b.amount + a < 0 by omega]
      · intro st' h
        by_cases hneg : b.amount + a < 0
        · simp [hneg] at h
        · simp only [hneg, if_false, Except.ok.injEq] at h
          subst h
          constructor
          · show lookupBalance _ u t = b.amount + a
            unfold lookupBalance fetchBalance
            rw [find?_map_balKey]
            unfold fetchBalance at hfb
            rw [hfb]
            rfl
          · intro r hr
            simp only [List.mem_map] at hr
            obtain ⟨r0, hr0, hr0e⟩ := hr
            by_cases hk : balKey u t r0
            · right
              rw [← hr0e]
              simp [hk]
              omega
            · left
              rw [← hr0e]
              simp [hk]
              exact hr0

/-- C5 witness: on a ledger holding 2 GOLD for account 1, withdrawing 3
fails with `InsufficientFunds`, and depositing 3 commits 5. -/
theorem update_balance_nonneg_guard_witness :
    update_balance goldSt 1 "GOLD" (-3) = .error .insufficientFunds ∧
    ∀ st', update_balance goldSt 1 "GOLD" 3 = .ok st' →
      lookupBalance st' 1 "GOLD" = lookupBalance goldSt 1 "GOLD" + 3 :=
  ⟨(update_balance_nonneg_guard goldSt 1 "GOLD" (-3)).1.mpr (by decide),
   fun st' h => ((update_balance_nonneg_guard goldSt 1 "GOLD" 3).2 st' h).1⟩

/-! ## C6 : Limit orders rest without matching -/

/-- C6: a Limit order submission (qty > 0, price > 0) produces no execution
and touches no balance: `create_order` just appends the order with status
`NEW` and `filled = 0` as resting liquidity — for every state `st`,
including books whose opposite side the limit price crosses. -/
theorem limit_order_rests_unmatched (st : ExchangeState) (uid oid : Nat)
    (d : Direction) (t : String) (q p : Int) (hq : 0 < q) (hp : 0 < p) :
    (create_order st uid oid (.limit d t q p)).1 = .ok oid ∧
    (create_order st uid oid (.limit d t q p)).2.transactions =
      st.transactions ∧
    (create_order st uid oid (.limit d t q p)).2.balances = st.balances ∧
    (create_order st uid oid (.limit d t q p)).2.orders =
      st.orders ++
        [{ id := oid, status := .new, user_id := uid,
           timestamp := st.clock, direction := d, ticker := t, qty := q,
           price := some p, filled := 0, order_type := .limit }] :=
  ⟨rfl, rfl, rfl, rfl⟩

/-- C6 witness: a Limit Buy 10@50 submitted against a book resting a Sell
10@40 (a crossing price) produces no transaction and no balance change. -/
theorem limit_order_rests_unmatched_witness :
    (create_order crossSt 2 9 (.limit .buy "AAPL" 10 50)).1 = .ok 9 ∧
    (create_order crossSt 2 9 (.limit .buy "AAPL" 10 50)).2.transactions =
      crossSt.transactions ∧
    (create_order crossSt 2 9 (.limit .buy "AAPL" 10 50)).2.balances =
      crossSt.balances ∧
    (create_order crossSt 2 9 (.limit .buy "AAPL" 10 50)).2.orders =
      crossSt.orders ++
        [{ id := 9, status := .new, user_id := 2,
           timestamp := crossSt.clock, direction := .buy, ticker := "AAPL",
           qty := 10, price := some 50, filled := 0,
           order_type := .limit }] :=
  limit_order_rests_unmatched crossSt 2 9 .buy "AAPL" 10 50 (by omega)
    (by omega)

/-! ## C8 : cancellation -/

/-- C8: `cancel_order` fails with `NotFound` when the caller owns no order
of the given id; fails with `InvalidState` leaving the state untouched when
the order's status is already `EXECUTED` or `CANCELLED` (terminal statuses
are never left); and otherwise (status `NEW` or `PARTIALLY_EXECUTED`)
succeeds, setting the order's status to `CANCELLED`. -/
theorem cancel_order_spec (st : ExchangeState) (uid oid : Nat) :
    (findOrder st uid oid = none →
      cancel_order st uid oid = (.error .notFound, st)) ∧
    (∀ o, findOrder st uid oid = some o →
      (o.status = .executed ∨ o.status = .cancelled) →
      cancel_order st uid oid = (.error .invalidState, st)) ∧
    (∀ o, findOrder st uid oid = some o →
      ¬(o.status = .executed ∨ o.status = .cancelled) →
      cancel_order st uid oid = (.ok (),
        { st with orders := st.orders.map fun r =>
            if r.id = oid then { r with status := .cancelled } else r })) := by
  refine ⟨?_, ?_, ?_⟩
  · intro h
    unfold cancel_order
    rw [h]
  · intro o h ho
    unfold cancel_order
    rw [h]
    simp only [if_pos ho]
  · intro o h ho
    unfold cancel_order
    rw [h]
    simp only [if_neg ho]

/-- C8 witness: cancelling an already-executed order fails with
`InvalidState` and changes nothing; cancelling an unknown id fails with
`NotFound`; cancelling an open order succeeds and marks it `CANCELLED`. -/
theorem cancel_order_spec_witness :
    cancel_order cancelSt 1 3 = (.error .invalidState, cancelSt) ∧
    cancel_order cancelSt 1 99 = (.error .notFound, cancelSt) ∧
    cancel_order cancelSt 1 4 = (.ok (),
      { cancelSt with orders := cancelSt.orders.map fun r =>
          if r.id = 4 then { r with status := .cancelled } else r }) :=
  ⟨(cancel_order_spec cancelSt 1 3).2.1 cancelRowDone (by decide) (by decide),
   (cancel_order_spec cancelSt 1 99).1 (by decide),
   (cancel_order_spec cancelSt 1 4).2.2 cancelRowOpen (by decide) (by decide)⟩

/-! ## C10 : deposit then withdraw round-trips -/

theorem update_balance_ok_of_nonneg (st : ExchangeState) (u : Nat)
    (t : String) (a : Int) (h : 0 ≤ lookupBalance st u t + a) :
    ∃ st', update_balance st u t a = .ok st' := by
  unfold update_balance
  cases hfb : fetchBalance st u t with
  | none =>
      have hcur : lookupBalance st u t = 0 := by simp [lookupBalance, hfb]
      rw [hcur] at h
      exact ⟨_, by dsimp only; rw [if_neg (by omega : ¬ a < 0)]⟩
  | some b =>
      have hcur : lookupBalance st u t = b.amount := by
        simp [lookupBalance, hfb]
      rw [hcur] at h
      exact ⟨_, by dsimp only; rw [if_neg (by omega : ¬ b.amount + a < 0)]⟩

theorem update_balance_lookup (st : ExchangeState) (u : Nat) (t : String)
    (a : Int) (st' : ExchangeState) (h : update_balance st u t a = .ok st') :
    lookupBalance st' u t = lookupBalance st u t + a := by
  unfold update_balance at h
  cases hfb : fetchBalance st u t with
  | none =>
      rw [hfb] at h
      dsimp only at h
      by_cases hneg : a < 0
      · rw [if_pos hneg] at h
        exact absurd h (by simp)
      · rw [if_neg hneg, Except.ok.injEq] at h
        subst h
        have hcur : lookupBalance st u t = 0 := by simp [lookupBalance, hfb]
        rw [hcur]
        unfold lookupBalance fetchBalance
        simp only [List.find?_append]
        unfold fetchBalance at hfb
        rw [hfb]
        simp [List.find?, balKey]
  | some b =>
      rw [hfb] at h
      dsimp only at h
      by_cases hneg : b.amount + a < 0
      · rw [if_pos hneg] at h
        exact absurd h (by simp)
      · rw [if_neg hneg, Except.ok.injEq] at h
        subst h
        have hcur : lookupBalance st u t = b.amount := by
          simp [lookupBalance, hfb]
        rw [hcur]
        unfold lookupBalance fetchBalance
        rw [find?_map_balKey]
        unfold fetchBalance at hfb
        rw [hfb]
        rfl

theorem update_balance_lookup_ne (st : ExchangeState) (u : Nat) (t : String)
    (a : Int) (st' : ExchangeState) (h : update_balance st u t a = .ok st')
    (u' : Nat) (t' : String) (hne : ¬(u' = u ∧ t' = t)) :
    lookupBalance st' u' t' = lookupBalance st u' t' := by
  unfold update_balance at h
  cases hfb : fetchBalance st u t with
  | none =>
      rw [hfb] at h
      dsimp only at h
      by_cases hneg : a < 0
      · rw [if_pos hneg] at h
        exact absurd h (by simp)
      · rw [if_neg hneg, Except.ok.injEq] at h
        subst h
        unfold lookupBalance fetchBalance
        simp only [List.find?_append]
        have hlast : [(⟨u, t, a⟩ : BalanceRow)].find? (balKey u' t') = none := by
          simp only [List.find?_cons, List.find?_nil]
          have hfalse : balKey u' t' (⟨u, t, a⟩ : BalanceRow) = false := by
            simp only [balKey, decide_eq_false_iff_not]
            rintro ⟨h1, h2⟩
            exact hne ⟨h1.symm, h2.symm⟩
          rw [hfalse]
        rw [hlast]
        simp
  | some b =>
      rw [hfb] at h
      dsimp only at h
      by_cases hneg : b.amount + a < 0
      · rw [if_pos hneg] at h
        exact absurd h (by simp)
      · rw [if_neg hneg, Except.ok.injEq] at h
        subst h
        unfold lookupBalance fetchBalance
        rw [find?_map_balKey_ne _ _ _ _ _ _ hne]

/-- C10: starting from a state whose (account, ticker) balance is
non-negative (the ledger invariant), depositing `a > 0` succeeds, the
following withdraw of `a` succeeds (the post-deposit balance is at least
`a`), the account's balance for that ticker returns to its pre-deposit
value, and every other (account, ticker) balance is unchanged. -/
theorem deposit_withdraw_roundtrip (st : ExchangeState) (u : Nat)
    (t : String) (a : Int) (ha : 0 < a) (hb : 0 ≤ lookupBalance st u t) :
    ((depositThenWithdraw st u t a).map fun st2 => lookupBalance st2 u t) =
      .ok (lookupBalance st u t) ∧
    ∀ u' t', ¬(u' = u ∧ t' = t) →
      ((depositThenWithdraw st u t a).map fun st2 => lookupBalance st2 u' t') =
        .ok (lookupBalance st u' t') := by
  obtain ⟨st1, h1⟩ := update_balance_ok_of_nonneg st u t a (by omega)
  have l1 := update_balance_lookup st u t a st1 h1
  obtain ⟨st2, h2⟩ := update_balance_ok_of_nonneg st1 u t (-a) (by omega)
  have l2 := update_balance_lookup st1 u t (-a) st2 h2
  have hcomp : depositThenWithdraw st u t a = .ok st2 := by
    unfold depositThenWithdraw deposit withdraw
    rw [h1]
    simpa [Except.bind] using h2
  constructor
  · rw [hcomp]
    simp only [Except.map]
    rw [l2, l1]
    norm_num
  · intro u' t' hne
    have n1 := update_balance_lookup_ne st u t a st1 h1 u' t' hne
    have n2 := update_balance_lookup_ne st1 u t (-a) st2 h2 u' t' hne
    rw [hcomp]
    simp only [Except.map]
    rw [n2, n1]

/-- C10 witness: depositing then withdrawing 5 GOLD on account 1 (which
holds 2) restores the 2, and account 3's X balance is untouched. -/
theorem deposit_withdraw_roundtrip_witness :
    ((depositThenWithdraw goldSt 1 "GOLD" 5).map fun st2 =>
      lookupBalance st2 1 "GOLD") = .ok (lookupBalance goldSt 1 "GOLD") ∧
    ((depositThenWithdraw goldSt 1 "GOLD" 5).map fun st2 =>
      lookupBalance st2 3 "X") = .ok (lookupBalance goldSt 3 "X") :=
  ⟨(deposit_withdraw_roundtrip goldSt 1 "GOLD" 5 (by omega) (by decide)).1,
   (deposit_withdraw_roundtrip goldSt 1 "GOLD" 5 (by omega) (by decide)).2 3 "X"
     (by decide)⟩

/-! ## C1 : no rollback on mid-submission failure -/

/-- C1: a submission that fails partway is NOT rolled back.  In `atomSt`,
account 2's Market Buy 10 AAPL meets the resting Sell 10@50 of account 1,
who owns no AAPL: the transaction row is inserted, the resting order is
marked `EXECUTED`, the buyer is credited 10 AAPL and debited 500 MEMCOIN and
the seller credited 500 MEMCOIN, and only then does the fourth balance
adjustment (seller −10 AAPL) fail with `InsufficientFunds` — every earlier
effect of the submission survives in the final state. -/
theorem failed_submission_keeps_partial_effects :
    (create_order atomSt 2 7 (.market .buy "AAPL" 10)).1 =
      .error .insufficientFunds ∧
    (create_order atomSt 2 7 (.market .buy "AAPL" 10)).2.transactions =
      [⟨"AAPL", 10, some 50, 1, 2, 1⟩] ∧
    (create_order atomSt 2 7 (.market .buy "AAPL" 10)).2.orders.map
      (fun o => (o.id, o.status, o.filled)) = [(0, .executed, 10)] ∧
    lookupBalance (create_order atomSt 2 7 (.market .buy "AAPL" 10)).2 2 "AAPL" = 10 ∧
    lookupBalance (create_order atomSt 2 7 (.market .buy "AAPL" 10)).2 2 "MEMCOIN" = 0 ∧
    lookupBalance (create_order atomSt 2 7 (.market .buy "AAPL" 10)).2 1 "MEMCOIN" = 500 ∧
    lookupBalance atomSt 2 "AAPL" = 0 ∧
    lookupBalance atomSt 2 "MEMCOIN" = 500 ∧
    lookupBalance atomSt 1 "MEMCOIN" = 0 ∧
    atomSt.transactions = [] ∧
    atomSt.orders.map (fun o => (o.id, o.status, o.filled)) =
      [(0, .new, 0)] := by
  decide

/-! ## C2 : persisted market orders are selected as counterparties -/

/-- C2: a Market order persisted with unfilled remainder IS selected as a
counterparty by a later opposite submission.  Account 1's Market Sell 5
AAPL into the empty book of `mkSt0` is persisted with status `NEW` and
`price = NULL`; the matching query of account 2's subsequent Market Buy 3
(which filters only on ticker, direction and resting status — never on
`order_type`) returns exactly that order, the engine inserts a NULL-price
transaction against it, marks it `PARTIALLY_EXECUTED` with `filled = 3`,
credits the buyer 3 AAPL, and then dies with a `TypeError` computing
`qty * None` — so the remainder is very much retried, and matching it even
crashes the handler. -/
theorem persisted_market_order_selected_as_match :
    (create_order mkSt0 1 100 (.market .sell "AAPL" 5)).1 = .ok 100 ∧
    mkSt1.orders.map (fun o => (o.id, o.status, o.price, o.order_type)) =
      [(100, .new, none, .market)] ∧
    (matchingOrders mkSt1 "AAPL" .buy).map OrderRow.id = [100] ∧
    (create_order mkSt1 2 101 (.market .buy "AAPL" 3)).1 = .error .typeError ∧
    (create_order mkSt1 2 101 (.market .buy "AAPL" 3)).2.transactions =
      [⟨"AAPL", 3, none, 1, 2, 1⟩] ∧
    (create_order mkSt1 2 101 (.market .buy "AAPL" 3)).2.orders.map
      (fun o => (o.id, o.status, o.filled)) = [(100, .partiallyExecuted, 3)] ∧
    lookupBalance (create_order mkSt1 2 101 (.market .buy "AAPL" 3)).2 2 "AAPL" = 3 := by
  decide

/-! ## C3 : price priority holds, timestamp tie-break does not -/

/-- C3 counterexample: the matching query's `ORDER BY` has the single key
`price` (src/main.py line 301) — no timestamp.  With two resting Sells at
price 100 and timestamps 1 < 2, the result listing the later order first
satisfies everything the query guarantees (`validMatchFetch`), yet violates
the claimed earliest-timestamp-first tie-break; so the claim's ordering is
not guaranteed by the code. -/
theorem matching_time_tiebreak_not_guaranteed :
    validMatchFetch tieSt "AAPL" .buy [tieRowLate, tieRowEarly] ∧
    ¬ timeTieOrdered [tieRowLate, tieRowEarly] := by
  constructor
  · constructor
    · have hfil : tieSt.orders.filter
          (fun o => isRestingRow o "AAPL" (opposite .buy)) =
          [tieRowEarly, tieRowLate] := by decide
      rw [hfil]
      exact List.Perm.swap tieRowEarly tieRowLate []
    · refine List.pairwise_cons.mpr ⟨?_, ?_⟩
      · intro b hb
        rw [List.mem_singleton] at hb
        subst hb
        decide
      · refine List.pairwise_cons.mpr ⟨?_, List.Pairwise.nil⟩
        intro b hb
        exact absurd hb (List.not_mem_nil b)
  · intro h
    unfold timeTieOrdered at h
    rw [List.pairwise_cons] at h
    have := h.1 tieRowEarly (List.mem_singleton.mpr rfl)
    revert this
    decide

/-- C3 amended: the counterparty list a Market submission consumes is a
permutation of exactly the resting opposite-side orders of the ticker,
ordered by price — ascending for a Buy, descending for a Sell (with SQLite
`NULL` prices first resp. last).  Ties at one price come in whatever order
the database returns; no timestamp ordering is requested or guaranteed. -/
theorem matching_orders_price_priority (st : ExchangeState) (t : String)
    (d : Direction) : validMatchFetch st t d (matchingOrders st t d) :=
  ⟨List.perm_insertionSort (matchRel d) _,
   List.sorted_insertionSort (matchRel d) _⟩

/-! ## C7 : no instrument-existence check -/

theorem update_balance_error_cases (st : ExchangeState) (u : Nat)
    (t : String) (a : Int) (e : Err)
    (h : update_balance st u t a = .error e) : e = .insufficientFunds := by
  unfold update_balance at h
  cases hfb : fetchBalance st u t <;> rw [hfb] at h <;> dsimp only at h <;>
    split at h <;> simp_all

theorem seqAdjust_error_cases (l : List Adjustment) : ∀ st st' e,
    seqAdjust st l = (st', some e) →
    e = .insufficientFunds ∨ e = .typeError := by
  induction l with
  | nil =>
      intro st st' e h
      simp [seqAdjust] at h
  | cons hd tl ih =>
      intro st st' e h
      obtain ⟨u, t, dlt⟩ := hd
      cases dlt with
      | none =>
          rw [seqAdjust] at h
          simp only [Prod.mk.injEq, Option.some.injEq] at h
          exact Or.inr h.2.symm
      | some a =>
          rw [seqAdjust] at h
          cases hub : update_balance st u t a with
          | error e' =>
              rw [hub] at h
              simp only [Prod.mk.injEq, Option.some.injEq] at h
              rw [← h.2]
              exact Or.inl (update_balance_error_cases st u t a e' hub)
          | ok st1 =>
              rw [hub] at h
              exact ih st1 st' e h

theorem matchLoop_error_cases (uid : Nat) (d : Direction) (t : String)
    (ms : List OrderRow) : ∀ st rem ex st' rem' ex' e,
    matchLoop uid d t ms st rem ex = (st', rem', ex', some e) →
    e = .insufficientFunds ∨ e = .typeError := by
  induction ms with
  | nil =>
      intro st rem ex st' rem' ex' e h
      simp [matchLoop] at h
  | cons m ms ih =>
      intro st rem ex st' rem' ex' e h
      rw [matchLoop] at h
      by_cases hrem : rem ≤ 0
      · rw [if_pos hrem] at h
        simp at h
      · rw [if_neg hrem] at h
        generalize hsq : seqAdjust
            (execPre uid d t m st (min rem (m.qty - m.filled)))
            (adjList d uid m.user_id t (min rem (m.qty - m.filled)) m.price) =
          res at h
        obtain ⟨st3, err⟩ := res
        cases err with
        | some e0 =>
            simp only [Prod.mk.injEq, Option.some.injEq] at h
            rw [← h.2.2.2]
            exact seqAdjust_error_cases _ _ _ _ hsq
        | none =>
            exact ih st3 _ _ st' rem' ex' e h

/-- C7 counterexample: `create_order` never consults the `instruments`
table.  With the instrument table empty, a Limit Buy naming the unknown
ticker ZZZZ is accepted and persisted as a `NEW` order rather than rejected
with `UnknownInstrument`. -/
theorem unknown_ticker_accepted :
    emptySt.instruments = [] ∧
    (create_order emptySt 1 5 (.limit .buy "ZZZZ" 4 10)).1 = .ok 5 ∧
    (create_order emptySt 1 5 (.limit .buy "ZZZZ" 4 10)).2.orders.map
      (fun o => (o.ticker, o.status)) = [("ZZZZ", .new)] := by
  decide

/-- C7 amended: non-positive quantities or prices are rejected with a
`ValidationError` by request-body validation (pydantic `conint(gt=0)`), but
`create_order` performs no instrument-existence check at all: the only
errors a submission itself can raise are the matching loop's
`InsufficientFunds` and `TypeError` — never `UnknownInstrument`. -/
theorem create_order_error_classification :
    (∀ d t (q p : Int), q ≤ 0 ∨ p ≤ 0 →
      parseLimitBody d t q p = .error .validationError) ∧
    (∀ d t (q : Int), q ≤ 0 →
      parseMarketBody d t q = .error .validationError) ∧
    (∀ st uid oid body e, (create_order st uid oid body).1 = .error e →
      e = .insufficientFunds ∨ e = .typeError) := by
  refine ⟨?_, ?_, ?_⟩
  · intro d t q p h
    unfold parseLimitBody
    rw [if_pos h]
  · intro d t q h
    unfold parseMarketBody
    rw [if_pos h]
  · intro st uid oid body e h
    cases body with
    | limit d t q p =>
        exact absurd h (by simp [create_order])
    | market d t q =>
        unfold create_order at h
        dsimp only at h
        rcases hml : matchLoop uid d t (matchingOrders st t d) st q false with
          ⟨st1, rem, ex, err⟩
        rw [hml] at h
        cases err with
        | some e0 =>
            dsimp only at h
            rw [Except.error.injEq] at h
            rw [← h]
            exact matchLoop_error_cases uid d t (matchingOrders st t d)
              st q false st1 rem ex e0 hml
        | none =>
            dsimp only at h
            split at h <;> (try split at h) <;> simp_all

/-- C7 amended witness: quantity 0 is rejected by validation, and a
submission that does fail raises `InsufficientFunds` (the `atomSt`
scenario), which the classification confirms is one of the two possible
submission errors. -/
theorem create_order_error_classification_witness :
    parseLimitBody .buy "AAPL" 0 5 = .error .validationError ∧
    (Err.insufficientFunds = .insufficientFunds ∨
      Err.insufficientFunds = .typeError) :=
  ⟨create_order_error_classification.1 .buy "AAPL" 0 5 (Or.inl le_rfl),
   create_order_error_classification.2.2 atomSt 2 7 (.market .buy "AAPL" 10)
     .insufficientFunds (by decide)⟩

/-! ## C4 : each execution's four adjustments are zero-sum -/

theorem totalOf_append (l1 l2 : List BalanceRow) (s : String) :
    totalOf (l1 ++ l2) s = totalOf l1 s + totalOf l2 s := by
  induction l1 with
  | nil => simp [totalOf]
  | cons c l ih =>
      show (if c.ticker = s then c.amount else 0) + totalOf (l ++ l2) s =
        (if c.ticker = s then c.amount else 0) + totalOf l s + totalOf l2 s
      rw [ih]
      ring

theorem totalOf_update_map (u : Nat) (t : String) (n : Int) :
    ∀ (l : List BalanceRow) (b : BalanceRow),
    l.find? (balKey u t) = some b →
    (l.map fun r => (r.user_id, r.ticker)).Nodup →
    ∀ s, totalOf (l.map fun r =>
        if balKey u t r then { r with amount := n } else r) s =
      totalOf l s + (if t = s then n - b.amount else 0) := by
  intro l
  induction l with
  | nil =>
      intro b hf
      simp at hf
  | cons c l ih =>
      intro b hf hnd s
      rw [List.map_cons, List.nodup_cons] at hnd
      by_cases hk : balKey u t c
      · have hb : b = c := by
          rw [List.find?_cons_of_pos _ hk, Option.some.injEq] at hf
          exact hf.symm
        have hck : c.user_id = u ∧ c.ticker = t := by simpa [balKey] using hk
        have hne : ∀ r ∈ l, (if balKey u t r then
            ({ r with amount := n } : BalanceRow) else r) = r := by
          intro r hr
          have : balKey u t r = false := by
            rw [balKey, decide_eq_false_iff_not]
            rintro ⟨h1, h2⟩
            exact hnd.1 (by
              rw [List.mem_map]
              exact ⟨r, hr, by rw [h1, h2, hck.1, hck.2]⟩)
          rw [this]
          rfl
        have htail : l.map (fun r =>
            if balKey u t r then ({ r with amount := n } : BalanceRow) else r) = l := by
          rw [List.map_congr_left hne]
          exact List.map_id l
        rw [List.map_cons, if_pos hk, htail]
        simp only [totalOf]
        rw [hb]
        show (if c.ticker = s then n else 0) + totalOf l s =
          (if c.ticker = s then c.amount else 0) + totalOf l s +
            (if t = s then n - c.amount else 0)
        rw [hck.2]
        by_cases hts : t = s
        · rw [if_pos hts, if_pos hts, if_pos hts]
          ring
        · rw [if_neg hts, if_neg hts, if_neg hts]
          ring
      · have hf' : l.find? (balKey u t) = some b := by
          rwa [List.find?_cons_of_neg _ hk] at hf
        rw [List.map_cons, if_neg hk]
        simp only [totalOf]
        rw [ih b hf' hnd.2 s]
        ring

theorem update_balance_total (st : ExchangeState) (u : Nat) (t : String)
    (a : Int) (st' : ExchangeState) (hnd : balKeysNodup st)
    (h : update_balance st u t a = .ok st') :
    balKeysNodup st' ∧
    ∀ s, totalOf st'.balances s =
      totalOf st.balances s + (if t = s then a else 0) := by
  unfold update_balance at h
  cases hfb : fetchBalance st u t with
  | none =>
      rw [hfb] at h
      dsimp only at h
      by_cases hneg : a < 0
      · rw [if_pos hneg] at h
        exact absurd h (by simp)
      · rw [if_neg hneg, Except.ok.injEq] at h
        subst h
        have hnotin : (u, t) ∉ st.balances.map fun r => (r.user_id, r.ticker) := by
          intro hmem
          rw [List.mem_map] at hmem
          obtain ⟨r, hr, hrk⟩ := hmem
          have := List.find?_eq_none.mp hfb r hr
          rw [balKey, decide_eq_true_eq] at this
          exact this ⟨congrArg Prod.fst hrk, congrArg Prod.snd hrk⟩
        constructor
        · unfold balKeysNodup at hnd ⊢
          show ((st.balances ++ [(⟨u, t, a⟩ : BalanceRow)]).map fun r =>
            (r.user_id, r.ticker)).Nodup
          rw [List.map_append]
          simp only [List.map_cons, List.map_nil]
          refine List.Nodup.append hnd (List.nodup_singleton _) ?_
          rw [List.disjoint_singleton]
          exact hnotin
        · intro s
          show totalOf (st.balances ++ [(⟨u, t, a⟩ : BalanceRow)]) s = _
          rw [totalOf_append]
          simp only [totalOf]
          ring
  | some b =>
      rw [hfb] at h
      dsimp only at h
      by_cases hneg : b.amount + a < 0
      · rw [if_pos hneg] at h
        exact absurd h (by simp)
      · rw [if_neg hneg, Except.ok.injEq] at h
        subst h
        have hfind : st.balances.find? (balKey u t) = some b := hfb
        constructor
        · unfold balKeysNodup at hnd ⊢
          show ((st.balances.map fun r =>
              if balKey u t r then { r with amount := b.amount + a } else r).map
              fun rr => (rr.user_id, rr.ticker)).Nodup
          rw [List.map_map]
          have hcomp : ((fun rr : BalanceRow => (rr.user_id, rr.ticker)) ∘ fun r =>
              if balKey u t r then { r with amount := b.amount + a } else r) =
              fun rr : BalanceRow => (rr.user_id, rr.ticker) := by
            funext r
            by_cases hk : balKey u t r <;> simp [Function.comp, hk]
          rw [hcomp]
          exact hnd
        · intro s
          show totalOf (st.balances.map _) s = _
          rw [totalOf_update_map u t (b.amount + a) st.balances b hfind hnd s]
          by_cases hts : t = s
          · rw [if_pos hts, if_pos hts]
            ring
          · rw [if_neg hts, if_neg hts]

theorem netDelta_adjList (d : Direction) (uid muid : Nat) (t : String)
    (q : Int) (p : Option Int) (s : String) :
    netDelta s (adjList d uid muid t q p) = 0 := by
  cases d <;> cases p <;>
    simp only [adjList, netDelta, Option.map_none, Option.map_some,
      Option.getD_some, Option.getD_none] <;>
    by_cases h1 : t = s <;> by_cases h2 : baseCurrency = s <;>
    simp [h1, h2] <;> ring

theorem seqAdjust_total (l : List Adjustment) : ∀ st st',
    balKeysNodup st → seqAdjust st l = (st', none) →
    balKeysNodup st' ∧
    ∀ s, totalOf st'.balances s = totalOf st.balances s + netDelta s l := by
  induction l with
  | nil =>
      intro st st' hnd h
      simp only [seqAdjust, Prod.mk.injEq] at h
      rw [← h.1]
      exact ⟨hnd, fun s => by simp [netDelta]⟩
  | cons hd tl ih =>
      intro st st' hnd h
      obtain ⟨u, t, dlt⟩ := hd
      cases dlt with
      | none =>
          rw [seqAdjust] at h
          simp at h
      | some a =>
          rw [seqAdjust] at h
          cases hub : update_balance st u t a with
          | error e =>
              rw [hub] at h
              simp at h
          | ok st1 =>
              rw [hub] at h
              obtain ⟨hnd1, htot1⟩ := update_balance_total st u t a st1 hnd hub
              obtain ⟨hnd2, htot2⟩ := ih st1 st' hnd1 h
              refine ⟨hnd2, fun s => ?_⟩
              rw [htot2 s, htot1 s]
              show _ = _ + ((if t = s then (some a).getD 0 else 0) + netDelta s tl)
              simp only [Option.getD_some]
              ring

theorem matchLoop_total (uid : Nat) (d : Direction) (t : String)
    (ms : List OrderRow) : ∀ st rem ex st' rem' ex',
    balKeysNodup st →
    matchLoop uid d t ms st rem ex = (st', rem', ex', none) →
    balKeysNodup st' ∧
    ∀ s, totalOf st'.balances s = totalOf st.balances s := by
  induction ms with
  | nil =>
      intro st rem ex st' rem' ex' hnd h
      simp only [matchLoop, Prod.mk.injEq] at h
      rw [← h.1]
      exact ⟨hnd, fun s => rfl⟩
  | cons m ms ih =>
      intro st rem ex st' rem' ex' hnd h
      rw [matchLoop] at h
      by_cases hrem : rem ≤ 0
      · rw [if_pos hrem] at h
        simp only [Prod.mk.injEq] at h
        rw [← h.1]
        exact ⟨hnd, fun s => rfl⟩
      · rw [if_neg hrem] at h
        rcases hsq : seqAdjust
            (execPre uid d t m st (min rem (m.qty - m.filled)))
            (adjList d uid m.user_id t (min rem (m.qty - m.filled)) m.price)
          with ⟨st3, err⟩
        rw [hsq] at h
        cases err with
        | some e =>
            dsimp only at h
            simp at h
        | none =>
            dsimp only at h
            have hndpre : balKeysNodup
                (execPre uid d t m st (min rem (m.qty - m.filled))) := hnd
            obtain ⟨hnd3, htot3⟩ := seqAdjust_total _ _ _ hndpre hsq
            obtain ⟨hnd', htot'⟩ := ih st3 _ _ st' rem' ex' hnd3 h
            refine ⟨hnd', fun s => ?_⟩
            rw [htot' s, htot3 s, netDelta_adjList]
            show totalOf st.balances s + 0 = totalOf st.balances s
            ring

/-- C4: every execution of a Market submission applies exactly the four
balance adjustments — buyer `+qty` of the ticker, buyer `−qty·price` of the
settlement currency MEMCOIN, seller `−qty` of the ticker, seller
`+qty·price` of MEMCOIN, at the resting order's price — whose net delta per
asset is zero; consequently a submission that succeeds leaves the total
amount of every asset over all accounts unchanged. -/
theorem market_submission_zero_sum (st : ExchangeState) (uid oid : Nat)
    (d : Direction) (t : String) (q : Int) (r : Nat) (st' : ExchangeState)
    (hnd : balKeysNodup st)
    (h : create_order st uid oid (.market d t q) = (.ok r, st')) :
    (∀ (u mu : Nat) (tk : String) (qq pr : Int),
      adjList .buy u mu tk qq (some pr) =
        [(u, tk, some qq), (u, baseCurrency, some (-(qq * pr))),
         (mu, baseCurrency, some (qq * pr)), (mu, tk, some (-qq))] ∧
      adjList .sell u mu tk qq (some pr) =
        [(u, baseCurrency, some (qq * pr)), (u, tk, some (-qq)),
         (mu, tk, some qq), (mu, baseCurrency, some (-(qq * pr)))]) ∧
    (∀ (s : String) (dd : Direction) (u mu : Nat) (tk : String) (qq : Int)
      (pr : Option Int), netDelta s (adjList dd u mu tk qq pr) = 0) ∧
    (∀ s, totalBalance st' s = totalBalance st s) := by
  refine ⟨fun u mu tk qq pr => ⟨rfl, rfl⟩,
    fun s dd u mu tk qq pr => netDelta_adjList dd u mu tk qq pr s, ?_⟩
  unfold create_order at h
  dsimp only at h
  rcases hml : matchLoop uid d t (matchingOrders st t d) st q false with
    ⟨st1, rem, ex, err⟩
  rw [hml] at h
  cases err with
  | some e =>
      dsimp only at h
      simp at h
  | none =>
      dsimp only at h
      obtain ⟨hnd1, htot1⟩ :=
        matchLoop_total uid d t (matchingOrders st t d) st q false st1 rem ex
          hnd hml
      have hb1 : st'.balances = st1.balances := by
        split at h <;> (try split at h) <;> (try split at h) <;>
          (rw [Prod.mk.injEq] at h
           rw [← h.2])
      intro s
      show totalOf st'.balances s = totalOf st.balances s
      rw [hb1]
      exact htot1 s

/-- C4 witness: account 2's Market Buy 10 AAPL against the funded seller of
`fundedSt` succeeds end to end, and the totals of both AAPL and MEMCOIN
over all accounts are unchanged by the trade. -/
theorem market_submission_zero_sum_witness :
    totalBalance (create_order fundedSt 2 7 (.market .buy "AAPL" 10)).2
      "AAPL" = totalBalance fundedSt "AAPL" ∧
    totalBalance (create_order fundedSt 2 7 (.market .buy "AAPL" 10)).2
      "MEMCOIN" = totalBalance fundedSt "MEMCOIN" :=
  ⟨(market_submission_zero_sum fundedSt 2 7 .buy "AAPL" 10 7
      (create_order fundedSt 2 7 (.market .buy "AAPL" 10)).2
      (by unfold balKeysNodup; decide) (by decide)).2.2 "AAPL",
   (market_submission_zero_sum fundedSt 2 7 .buy "AAPL" 10 7
      (create_order fundedSt 2 7 (.market .buy "AAPL" 10)).2
      (by unfold balKeysNodup; decide) (by decide)).2.2 "MEMCOIN"⟩

/-! ## C9 : L2 snapshot truncates orders, not price levels -/

/-- C9 counterexample: the `LIMIT` of the order-book queries applies to
rows (individual orders), not to aggregated price levels.  With 26 resting
Sells of remaining quantity 1 all at price 100, `get_orderbook` (limit
clamped to 25) reports the single level (100, 25), while aggregating all
resting orders and truncating to 25 *levels* — the claim's reading — gives
(100, 26). -/
theorem orderbook_truncates_orders_not_levels :
    (get_orderbook bookSt26 "AAPL" 30).ask_levels = [(some 100, 25)] ∧
    spec_snapshotLevels bookSt26 "AAPL" .sell 30 = [(some 100, 26)] ∧
    ¬ (get_orderbook bookSt26 "AAPL" 30).ask_levels =
        spec_snapshotLevels bookSt26 "AAPL" .sell 30 := by
  decide

theorem bumpLevel_length (ls : List (Option Int × Int)) (p : Option Int)
    (q : Int) : (bumpLevel ls p q).length ≤ ls.length + 1 := by
  induction ls with
  | nil => simp [bumpLevel]
  | cons e ls ih =>
      obtain ⟨p', q'⟩ := e
      rw [bumpLevel]
      by_cases hp : p' = p
      · rw [if_pos hp]
        simp
      · rw [if_neg hp]
        simp only [List.length_cons]
        omega

theorem foldl_bumpLevel_length :
    ∀ (rows : List OrderRow) (acc : List (Option Int × Int)),
    (rows.foldl (fun acc o => bumpLevel acc o.price (o.qty - o.filled))
      acc).length ≤ acc.length + rows.length := by
  intro rows
  induction rows with
  | nil => intro acc; simp
  | cons o rows ih =>
      intro acc
      rw [List.foldl_cons]
      have h1 := ih (bumpLevel acc o.price (o.qty - o.filled))
      have h2 := bumpLevel_length acc o.price (o.qty - o.filled)
      simp only [List.length_cons]
      omega

theorem lookupLevel_bumpLevel (ls : List (Option Int × Int)) (p : Option Int)
    (q : Int) (p' : Option Int) :
    lookupLevel (bumpLevel ls p q) p' =
      lookupLevel ls p' + if p' = p then q else 0 := by
  induction ls with
  | nil =>
      rw [bumpLevel]
      by_cases hp : p' = p
      · subst hp
        simp [lookupLevel, List.find?]
      · have hp' : ¬ p = p' := fun h => hp h.symm
        simp [lookupLevel, List.find?, hp, hp']
  | cons e ls ih =>
      obtain ⟨pk, qk⟩ := e
      rw [bumpLevel]
      by_cases hk : pk = p
      · rw [if_pos hk]
        by_cases hp : p' = pk
        · subst hp
          simp [lookupLevel, List.find?, hk]
        · have hp2 : ¬ p' = p := by rw [← hk]; exact hp
          have hpk : ¬ pk = p' := fun h => hp h.symm
          simp [lookupLevel, List.find?, hpk, hp2]
      · rw [if_neg hk]
        by_cases hp : p' = pk
        · subst hp
          have hp2 : ¬ p' = p := hk
          simp [lookupLevel, List.find?, hp2]
        · have hpk : ¬ pk = p' := fun h => hp h.symm
          have e1 : lookupLevel ((pk, qk) :: bumpLevel ls p q) p' =
              lookupLevel (bumpLevel ls p q) p' := by
            simp [lookupLevel, List.find?, hpk]
          have e2 : lookupLevel ((pk, qk) :: ls) p' = lookupLevel ls p' := by
            simp [lookupLevel, List.find?, hpk]
          rw [e1, e2, ih]

theorem lookupLevel_foldl :
    ∀ (rows : List OrderRow) (acc : List (Option Int × Int)) (p : Option Int),
    lookupLevel (rows.foldl
        (fun acc o => bumpLevel acc o.price (o.qty - o.filled)) acc) p =
      lookupLevel acc p + sumRemainingAt rows p := by
  intro rows
  induction rows with
  | nil =>
      intro acc p
      simp [sumRemainingAt]
  | cons o rows ih =>
      intro acc p
      rw [List.foldl_cons, ih, lookupLevel_bumpLevel]
      rw [sumRemainingAt]
      by_cases hp : p = o.price
      · rw [if_pos hp, if_pos hp.symm]
        ring
      · rw [if_neg hp, if_neg (fun hh => hp hh.symm)]
        ring

theorem bumpLevel_keys (ls : List (Option Int × Int)) (p : Option Int)
    (q : Int) :
    (bumpLevel ls p q).map Prod.fst =
      if p ∈ ls.map Prod.fst then ls.map Prod.fst
      else ls.map Prod.fst ++ [p] := by
  induction ls with
  | nil => simp [bumpLevel]
  | cons e ls ih =>
      obtain ⟨pk, qk⟩ := e
      rw [bumpLevel]
      by_cases hk : pk = p
      · rw [if_pos hk]
        have hmem : p ∈ ((pk, qk) :: ls).map Prod.fst := by
          rw [List.map_cons]
          rw [← hk]
          exact List.mem_cons_self _ _
        rw [if_pos hmem]
        simp
      · rw [if_neg hk]
        rw [List.map_cons, List.map_cons, ih]
        by_cases hmem : p ∈ ls.map Prod.fst
        · rw [if_pos hmem, if_pos (List.mem_cons_of_mem _ hmem)]
        · rw [if_neg hmem]
          have hnot : p ∉ pk :: ls.map Prod.fst := by
            intro hmem2
            rcases List.mem_cons.mp hmem2 with h1 | h2
            · exact hk h1.symm
            · exact hmem h2
          rw [if_neg hnot, List.cons_append]

theorem aggLevels_keys_nodup :
    ∀ (rows : List OrderRow) (acc : List (Option Int × Int)),
    (acc.map Prod.fst).Nodup →
    ((rows.foldl (fun acc o => bumpLevel acc o.price (o.qty - o.filled))
      acc).map Prod.fst).Nodup := by
  intro rows
  induction rows with
  | nil =>
      intro acc h
      simpa using h
  | cons o rows ih =>
      intro acc h
      rw [List.foldl_cons]
      apply ih
      rw [bumpLevel_keys]
      by_cases hmem : o.price ∈ acc.map Prod.fst
      · rw [if_pos hmem]
        exact h
      · rw [if_neg hmem]
        refine List.Nodup.append h (List.nodup_singleton _) ?_
        rw [List.disjoint_singleton]
        exact hmem

theorem mem_aggLevels_lookup :
    ∀ (ls : List (Option Int × Int)), (ls.map Prod.fst).Nodup →
    ∀ pq ∈ ls, lookupLevel ls pq.1 = pq.2 := by
  intro ls
  induction ls with
  | nil =>
      intro _ pq h
      simp at h
  | cons e ls ih =>
      intro hnd pq hmem
      obtain ⟨pk, qk⟩ := e
      rw [List.map_cons, List.nodup_cons] at hnd
      rcases List.mem_cons.mp hmem with h1 | h2
      · subst h1
        simp [lookupLevel, List.find?]
      · have hne : ¬ pk = pq.1 := by
          intro hh
          refine hnd.1 ?_
          rw [hh]
          exact List.mem_map.mpr ⟨pq, h2, rfl⟩
        have e1 : lookupLevel ((pk, qk) :: ls) pq.1 = lookupLevel ls pq.1 := by
          simp [lookupLevel, List.find?, hne]
        rw [e1]
        exact ih hnd.2 pq h2

theorem aggLevels_keys_sorted (le : Option Int → Option Int → Bool) :
    ∀ (rows : List OrderRow) (acc : List (Option Int × Int)),
    rows.Pairwise (fun a b => le a.price b.price = true) →
    (acc.map Prod.fst).Pairwise (fun a b => le a b = true) →
    (∀ k ∈ acc.map Prod.fst, ∀ row ∈ rows, le k row.price = true) →
    ((rows.foldl (fun acc o => bumpLevel acc o.price (o.qty - o.filled))
      acc).map Prod.fst).Pairwise (fun a b => le a b = true) := by
  intro rows
  induction rows with
  | nil =>
      intro acc _ hacc _
      simpa using hacc
  | cons o rows ih =>
      intro acc hrows hacc hcross
      rw [List.pairwise_cons] at hrows
      rw [List.foldl_cons]
      have hpair : ((bumpLevel acc o.price (o.qty - o.filled)).map
          Prod.fst).Pairwise (fun a b => le a b = true) := by
        rw [bumpLevel_keys]
        by_cases hmem : o.price ∈ acc.map Prod.fst
        · rw [if_pos hmem]
          exact hacc
        · rw [if_neg hmem]
          apply List.pairwise_append.mpr
          refine ⟨hacc, by simp, ?_⟩
          intro k hk p' hp'
          rw [List.mem_singleton] at hp'
          subst hp'
          exact hcross k hk o (List.mem_cons_self _ _)
      have hcross2 : ∀ k ∈ (bumpLevel acc o.price (o.qty - o.filled)).map
          Prod.fst, ∀ row ∈ rows, le k row.price = true := by
        intro k hk row hrow
        rw [bumpLevel_keys] at hk
        by_cases hmem : o.price ∈ acc.map Prod.fst
        · rw [if_pos hmem] at hk
          exact hcross k hk row (List.mem_cons_of_mem _ hrow)
        · rw [if_neg hmem] at hk
          rcases List.mem_append.mp hk with h1 | h2
          · exact hcross k h1 row (List.mem_cons_of_mem _ hrow)
          · rw [List.mem_singleton] at h2
            subst h2
            exact hrows.1 row hrow
      exact ih _ hrows.2 hpair hcross2

theorem bookSide_levels_spec (st : ExchangeState) (t : String)
    (d : Direction) (lim : Int) (hlim : 0 ≤ lim) :
    (aggLevels (fetchBookSide st t d lim)).length ≤ lim.toNat ∧
    (∀ pq ∈ aggLevels (fetchBookSide st t d lim),
      pq.2 = sumRemainingAt (fetchBookSide st t d lim) pq.1) ∧
    ((aggLevels (fetchBookSide st t d lim)).map Prod.fst).Pairwise
      (fun a b => priceKey (opposite d) a b = true) := by
  have hlen : (aggLevels (fetchBookSide st t d lim)).length ≤
      (fetchBookSide st t d lim).length := by
    have h := foldl_bumpLevel_length (fetchBookSide st t d lim) []
    simpa [aggLevels] using h
  have hfetchlen : (fetchBookSide st t d lim).length ≤ lim.toNat := by
    unfold fetchBookSide takeLim
    rw [if_neg (by omega : ¬ lim < 0)]
    rw [List.length_take]
    exact min_le_left _ _
  have hsorted : (fetchBookSide st t d lim).Pairwise (bookRel d) := by
    unfold fetchBookSide takeLim
    rw [if_neg (by omega : ¬ lim < 0)]
    exact List.Pairwise.sublist (List.take_sublist _ _)
      (List.sorted_insertionSort (bookRel d) _)
  refine ⟨le_trans hlen hfetchlen, ?_, ?_⟩
  · intro pq hmem
    have hnd := aggLevels_keys_nodup (fetchBookSide st t d lim) [] (by simp)
    have hl := mem_aggLevels_lookup _ hnd pq hmem
    have hf := lookupLevel_foldl (fetchBookSide st t d lim) [] pq.1
    rw [← hl]
    show lookupLevel (aggLevels (fetchBookSide st t d lim)) pq.1 = _
    unfold aggLevels
    rw [hf]
    simp [lookupLevel]
  · exact aggLevels_keys_sorted (priceKey (opposite d)) _ [] hsorted
      (by simp) (by simp)

/-- C9 amended: the snapshot clamps the limit to at most 25 and aggregates
remaining quantity (`qty − filled`) by price with bids descending and asks
ascending, best price first and at most `maxLevels` levels — but the
truncation applies to individual orders (the SQL `LIMIT` caps the rows
fetched), not to price levels: each reported level totals only the fetched
orders at that price, so levels can undercount whenever more than
`maxLevels` orders rest on a side. -/
theorem get_orderbook_spec (st : ExchangeState) (t : String) (lim : Int)
    (hlim : 0 ≤ lim) :
    ((get_orderbook st t lim).bid_levels.length ≤ (clampLimit lim).toNat ∧
     (get_orderbook st t lim).ask_levels.length ≤ (clampLimit lim).toNat) ∧
    ((∀ pq ∈ (get_orderbook st t lim).bid_levels,
        pq.2 = sumRemainingAt (fetchBookSide st t .buy (clampLimit lim)) pq.1) ∧
     (∀ pq ∈ (get_orderbook st t lim).ask_levels,
        pq.2 = sumRemainingAt (fetchBookSide st t .sell (clampLimit lim)) pq.1)) ∧
    (((get_orderbook st t lim).bid_levels.map Prod.fst).Pairwise
        (fun a b => priceLeDesc a b = true) ∧
     ((get_orderbook st t lim).ask_levels.map Prod.fst).Pairwise
        (fun a b => priceLeAsc a b = true)) := by
  have hcl : 0 ≤ clampLimit lim := by
    unfold clampLimit
    split <;> omega
  have hbid := bookSide_levels_spec st t .buy (clampLimit lim) hcl
  have hask := bookSide_levels_spec st t .sell (clampLimit lim) hcl
  exact ⟨⟨hbid.1, hask.1⟩, ⟨hbid.2.1, hask.2.1⟩, ⟨hbid.2.2, hask.2.2⟩⟩

/-- C9 amended witness: on the 26-order book, the ask side of the snapshot
with limit 10 has at most 10 levels and its level prices are ascending. -/
theorem get_orderbook_spec_witness :
    (get_orderbook bookSt26 "AAPL" 10).ask_levels.length ≤
      (clampLimit 10).toNat ∧
    ((get_orderbook bookSt26 "AAPL" 10).ask_levels.map Prod.fst).Pairwise
      (fun a b => priceLeAsc a b = true) :=
  ⟨(get_orderbook_spec bookSt26 "AAPL" 10 (by omega)).1.2,
   (get_orderbook_spec bookSt26 "AAPL" 10 (by omega)).2.2.2⟩
